import Mathlib

/-!
Verification development for `rope/refactor/functionutils.py`, the
signature/call reconciliation engine: shallow embedding of the data model
(`DefinitionInfo`, `CallInfo`, `ArgumentMapping`), the argument-remapping
algorithm, and the header parsers, together with theorems settling the
specification's claims.
-/

set_option autoImplicit false

/-! ## Python dict model

`ArgumentMapping.param_dict` is a Python `dict` keyed by parameter name.
The code only assigns (`d[k] = v`), tests membership (`k in d`) and reads
(`d[k]`).  We model it as an insertion-ordered association list where
assignment overwrites the value at the first occurrence of the key. -/

def dictFind : List (String × String) → String → Option String
  | [], _ => none
  | (k, v) :: rest, n => if k = n then some v else dictFind rest n

def dictInsert : List (String × String) → String → String → List (String × String)
  | [], k, v => [(k, v)]
  | (k', v') :: rest, k, v =>
    if k' = k then (k', v) :: rest else (k', v') :: dictInsert rest k v

/-! ## Data model (`DefinitionInfo`, `CallInfo`)

Embedded from `functionutils.py` lines 9-33 and 73-108.  `args_with_defaults`
pairs each parameter name with the exact source text of its default
expression (or `none`); `args_arg`/`keywords_arg` are the variadic names. -/

structure DefinitionInfo where
  function_name : String
  is_method : Bool
  args_with_defaults : List (String × Option String)
  args_arg : Option String
  keywords_arg : Option String
  deriving Repr, DecidableEq

structure CallInfo where
  function_name : String
  args : List String
  keywords : List (String × String)
  args_arg : Option String
  keywords_arg : Option String
  implicit_arg : Bool
  constructor : Bool
  deriving Repr, DecidableEq

/-- Python truthiness of an optional string: `None` and `""` are falsy;
models the `if self.keywords_arg:` test in `to_string`. -/
def pyTruthy : Option String → Bool
  | none => false
  | some s => s ≠ ""

/-- `CallInfo.to_string` (lines 92-108).  Returns `none` exactly when the
Python code would fail on `self.args[0]` (implicit arg with no args). -/
def CallInfo.to_string (c : CallInfo) : Option String :=
  match c.implicit_arg, c.args with
  | true, [] => none
  | _, _ =>
    let function :=
      if c.implicit_arg then c.args.headD "" ++ "." ++ c.function_name
      else c.function_name
    let start : Nat := if c.implicit_arg || c.constructor then 1 else 0
    let params := c.args.drop start
    let params := params ++ c.keywords.map (fun p => p.1 ++ "=" ++ p.2)
    let params := params ++ (match c.args_arg with
      | some a => ["*" ++ a]
      | none => [])
    let params := params ++ (if pyTruthy c.keywords_arg then ["**" ++ c.keywords_arg.getD ""] else [])
    some (function ++ "(" ++ String.intercalate ", " params ++ ")")

/-! ## `ArgumentMapping.__init__` (lines 163-181)

The Python code walks `call_info.args` with an index into
`definition_info.args_with_defaults`; we express the same loop as a
recursion that consumes the two lists in parallel (index `i` of the loop
corresponds to the head of the remaining parameter list). -/

def bindPos :
    List (String × Option String) → List String → List (String × String) →
      List (String × String) × List String
  | _, [], d => (d, [])
  | [], rest, d => (d, rest)
  | p :: ps, a :: as, d => bindPos ps as (dictInsert d p.1 a)

/-- The keyword loop of `ArgumentMapping.__init__` (lines 174-181): a
keyword whose name matches some parameter is bound (overwriting any
positional binding); otherwise it is appended to the keyword overflow. -/
def bindKw :
    List (String × Option String) → List (String × String) → List (String × String) →
      List (String × String) × List (String × String)
  | _, [], d => (d, [])
  | params, (n, v) :: ks, d =>
    if params.any (fun p => p.1 == n) then bindKw params ks (dictInsert d n v)
    else
      let r := bindKw params ks d
      (r.1, (n, v) :: r.2)

structure ArgumentMapping where
  call_info : CallInfo
  param_dict : List (String × String)
  keyword_args : List (String × String)
  args_arg : List String
  deriving Repr, DecidableEq

/-- `ArgumentMapping.__init__` (lines 163-181): positional binding first,
then keyword binding. -/
def ArgumentMapping.build (definition_info : DefinitionInfo) (call_info : CallInfo) :
    ArgumentMapping :=
  let pr := bindPos definition_info.args_with_defaults call_info.args []
  let kr := bindKw definition_info.args_with_defaults call_info.keywords pr.1
  { call_info := call_info
    param_dict := kr.1
    keyword_args := kr.2
    args_arg := pr.2 }

/-! ## `ArgumentMapping.to_call_info` (lines 183-206)

The parameter walk: emit bound parameters positionally until the first
unbound one; from there, emit every remaining bound parameter as a keyword
argument (the inner `for i in range(index, len)` loop) and stop (`break`). -/

def walkParams (dict : List (String × String)) : List String → List String × List (String × String)
  | [] => ([], [])
  | n :: rest =>
    match dictFind dict n with
    | some v =>
      let r := walkParams dict rest
      (v :: r.1, r.2)
    | none =>
      ([], (n :: rest).filterMap (fun m => (dictFind dict m).map (fun v => (m, v))))

def ArgumentMapping.to_call_info (m : ArgumentMapping) (definition_info : DefinitionInfo) :
    CallInfo :=
  let w := walkParams m.param_dict (definition_info.args_with_defaults.map Prod.fst)
  { function_name := m.call_info.function_name
    args := w.1 ++ m.args_arg
    keywords := w.2 ++ m.keyword_args
    args_arg := m.call_info.args_arg
    keywords_arg := m.call_info.keywords_arg
    implicit_arg := m.call_info.implicit_arg
    constructor := m.call_info.constructor }

/-! ## Header Locator (modelled from the spec, §4.1)

`rope.base.worder` is code of this repository that is not under `src/`
(only its callers are), so the functions `_find_parens_start`,
`get_word_at` and `get_primary_at` are modelled from the spec's Header
Locator contract.  We work over `List Char` so everything evaluates. -/

/-- Python `str.startswith`, over code points. -/
def charsStartWith : List Char → List Char → Bool
  | _, [] => true
  | [], _ :: _ => false
  | c :: cs, p :: ps => c = p && charsStartWith cs ps

def pyStartsWith (s pre : String) : Bool := charsStartWith s.data pre.data

/-- Python slicing `s[n:]`, over code points. -/
def pyDrop (s : String) (n : Nat) : String := String.mk (s.data.drop n)

def isSpaceChar (c : Char) : Bool := c = ' ' || c = '\t' || c = '\n' || c = '\r'

/-- Python `str.strip()`: drop whitespace from both ends. -/
def pyStrip (s : String) : String :=
  String.mk (((s.data.dropWhile isSpaceChar).reverse.dropWhile isSpaceChar).reverse)

def isWordChar (c : Char) : Bool := c.isAlphanum || c = '_'

/-- Modelled from the spec: marks the positions of the source that lie
inside a string literal (quotes included), so that bracket matching is not
confused by string-literal content.  Handles backslash escapes. -/
def stringMaskAux : Option Char → Bool → List Char → List Bool
  | _, _, [] => []
  | none, _, c :: rest =>
    if c = '\'' || c = '"' then true :: stringMaskAux (some c) false rest
    else false :: stringMaskAux none false rest
  | some q, esc, c :: rest =>
    if esc then true :: stringMaskAux (some q) false rest
    else if c = '\\' then true :: stringMaskAux (some q) true rest
    else if c = q then true :: stringMaskAux none false rest
    else true :: stringMaskAux (some q) false rest

def stringMask (cs : List Char) : List Bool := stringMaskAux none false cs

def isCloseBracket (c : Char) : Bool := c = ')' || c = ']' || c = '\x7d'

def isOpenBracket (c : Char) : Bool := c = '(' || c = '[' || c = '\x7b'

def findParensStartGo : List (Char × Bool) → Nat → Nat → Option Nat
  | [], _, _ => none
  | (c, inStr) :: rest, i, depth =>
    if inStr then findParensStartGo rest (i - 1) depth
    else if isCloseBracket c then findParensStartGo rest (i - 1) (depth + 1)
    else if isOpenBracket c then
      if depth = 0 then some i else findParensStartGo rest (i - 1) (depth - 1)
    else findParensStartGo rest (i - 1) depth

/-- Modelled from the spec (§4.1 Header Locator): given source text and the
offset of the header's closing delimiter, returns the offset of the
matching opening delimiter, accounting for nested parens/brackets/braces
and string-literal content; `none` when no matching opening delimiter is
found before the start of the text. -/
def findParensStart (cs : List Char) (close : Nat) : Option Nat :=
  findParensStartGo ((cs.zip (stringMask cs)).take close).reverse (close - 1) 0

/-- Modelled from the spec (§4.1): the word immediately before (ending at)
the given offset — the maximal identifier run ending there. -/
def getWordAt (cs : List Char) (offset : Nat) : String :=
  String.mk ((cs.take (offset + 1)).reverse.takeWhile isWordChar).reverse

/-- Modelled from the spec (§4.1): the dotted-primary expression
immediately before (ending at) the given offset, e.g. `a.b.c`. -/
def getPrimaryAt (cs : List Char) (offset : Nat) : String :=
  String.mk ((cs.take (offset + 1)).reverse.takeWhile (fun c => isWordChar c || c = '.')).reverse

/-- Python `str.rindex` restricted to a single character: index of the last
occurrence, `none` (Python: `ValueError`) when absent. -/
def rindexAux : List Char → Char → Nat → Option Nat
  | [], _, _ => none
  | c :: rest, t, i =>
    match rindexAux rest t (i + 1) with
    | some j => some j
    | none => if c = t then some i else none

def rindexChar (cs : List Char) (t : Char) : Option Nat := rindexAux cs t 0

/-! ## `_BaseFunctionParser` (lines 209-243) -/

structure BaseParser where
  call : List Char
  implicit_arg : Bool
  last_parens : Nat
  first_parens : Nat
  deriving Repr, DecidableEq

/-- `_BaseFunctionParser.__init__` (lines 213-221): `rindex` of the closing
delimiter (Python raises `ValueError` when absent), then the matching
opening delimiter via the Header Locator. -/
def baseParserInit (call : List Char) (implicit_arg : Bool) (is_lambda : Bool) :
    Except String BaseParser :=
  match (if is_lambda then rindexChar call ':' else rindexChar call ')') with
  | none => Except.error "ValueError: substring not found"
  | some lp =>
    match findParensStart call lp with
    | none => Except.error "unmatched delimiter"
    | some fp => Except.ok ⟨call, implicit_arg, lp, fp⟩

/-- `is_called_as_a_method` (lines 229-230). -/
def BaseParser.isCalledAsAMethod (p : BaseParser) : Bool :=
  p.implicit_arg && (p.call.take p.first_parens).contains '.'

/-- `get_function_name` (lines 223-227). -/
def BaseParser.getFunctionName (p : BaseParser) : String :=
  if p.isCalledAsAMethod then getWordAt p.call (p.first_parens - 1)
  else getPrimaryAt p.call (p.first_parens - 1)

/-! ## `_FunctionCallParser` (lines 280-302) -/

/-- Modelled from the spec: the result of parsing the fragment as a call
expression in the target grammar (Python `ast.parse`, outside this
repository), with each argument's exact source slice recovered by
`_get_source_range`.  A positional spread `*expr` appears in `argTexts`
with its leading star (the slice covers the `Starred` node); a
keyword-spread `**expr` appears as a keyword item whose name is `none`
(Python `ast.keyword` with `arg=None`). -/
structure AstCall where
  argTexts : List String
  keywordItems : List (Option String × String)
  deriving Repr, DecidableEq

/-- The keyword loop of `get_parameters` (lines 294-298): `assert kw.arg`
fails (Python `AssertionError`) on a keyword item without a name. -/
def namedKeywords : List (Option String × String) → Except String (List (String × String))
  | [] => Except.ok []
  | (none, _) :: _ => Except.error "AssertionError: kw.arg"
  | (some n, v) :: rest => do
    let r ← namedKeywords rest
    Except.ok ((n, v) :: r)

/-- Lines 299-301: `self.call[: self.call.rindex(".", 0, self.first_parens)]`,
stripped.  Only evaluated under the `is_called_as_a_method` guard, which
guarantees the dot exists; the `none` fallback is unreachable there. -/
def BaseParser.instanceText (p : BaseParser) : String :=
  match rindexChar (p.call.take p.first_parens) '.' with
  | some i => pyStrip (String.mk (p.call.take i))
  | none => ""

/-- `_FunctionCallParser.get_parameters` (lines 289-302). -/
def callGetParameters (p : BaseParser) (a : AstCall) :
    Except String (List String × List (String × String)) := do
  let kwargs ← namedKeywords a.keywordItems
  let args := if p.isCalledAsAMethod then p.instanceText :: a.argTexts else a.argTexts
  Except.ok (args, kwargs)

/-- The variadic-name stripping shared by `CallInfo.read` (lines 117-124)
and `DefinitionInfo._read` (lines 42-49): if the last entry starts with
`**` it becomes the variadic-keyword name; then if the (new) last entry
starts with `*` it becomes the variadic-positional name. -/
def stripStars (args0 : List String) : List String × Option String × Option String :=
  let s1 : List String × Option String :=
    match args0.getLast? with
    | some l => if pyStartsWith l "**" then (args0.dropLast, some (pyDrop l 2)) else (args0, none)
    | none => (args0, none)
  let s2 : List String × Option String :=
    match s1.1.getLast? with
    | some l => if pyStartsWith l "*" then (s1.1.dropLast, some (pyDrop l 1)) else (s1.1, none)
    | none => (s1.1, none)
  (s2.1, s2.2, s1.2)

/-- `CallInfo.read` (lines 110-135): run the call parser, strip the
variadic names, and for a constructor call prepend the definition's first
parameter name as a synthetic positional argument (`IndexError` when the
definition has no parameters, as in Python). -/
def CallInfo.read (call : List Char) (astc : AstCall)
    (is_method_call is_classmethod is_constructor : Bool)
    (definition_info : DefinitionInfo) : Except String CallInfo := do
  let p ← baseParserInit call (is_method_call || is_classmethod) false
  let r ← callGetParameters p astc
  let s := stripStars r.1
  let args ←
    if is_constructor then
      match definition_info.args_with_defaults.head? with
      | some pr => Except.ok (pr.1 :: s.1)
      | none => Except.error "IndexError"
    else Except.ok s.1
  Except.ok
    { function_name := p.getFunctionName
      args := args
      keywords := r.2
      args_arg := s.2.1
      keywords_arg := s.2.2
      implicit_arg := is_method_call || is_classmethod
      constructor := is_constructor }

/-! ## `_FunctionDefParser` (lines 245-277) and `DefinitionInfo._read` (lines 35-58) -/

/-- A "parameter name" as produced by `_FunctionDefParser.get_parameters`.
In Python the names are plain strings, except that the keyword-only
default step (line 275) zips over `kwargs[-len(kw_defaults):]`, whose
elements are `(name, default)` tuples — so a tuple can end up in name
position.  `pair` mirrors that tuple faithfully. -/
inductive PName where
  | str : String → PName
  | pair : PName → String → PName
  deriving Repr, DecidableEq

/-- Modelled from the spec: the `ast.arguments` of the definition header
(Python `ast.parse`, outside this repository).  `defaults` and
`kw_defaults` carry the exact source slices produced by
`_get_source_range`; an entry of `kw_defaults` is `none` for a
keyword-only parameter without a default (Python `None`, on which
`_get_source_range` raises `AttributeError`). -/
structure AstArguments where
  posonlyargs : List String
  args : List String
  vararg : Option String
  defaults : List String
  kwarg : Option String
  kwonlyargs : List String
  kw_defaults : List (Option String)
  deriving Repr, DecidableEq

/-- `_FunctionDefParser.get_parameters` (lines 254-277), step for step:
posonly and plain names, then `*vararg` appended, then the trailing
`len(defaults)` entries of `args` are zipped with the defaults and removed
from `args`, then `**kwarg`, then a bare `"*"` plus the keyword-only
names, then the trailing `len(kw_defaults)` entries of `kwargs` are zipped
with the keyword defaults and `len(kw_defaults)` entries are removed from
the end of `args`. -/
def defGetParameters (a : AstArguments) :
    Except String (List String × List (PName × String)) :=
  let args1 := a.posonlyargs ++ a.args
  let args2 := args1 ++ (match a.vararg with | some v => ["*" ++ v] | none => [])
  let nd := a.defaults.length
  let step3 : List String × List (PName × String) :=
    if 0 < nd then
      (args2.take (args2.length - nd),
       ((args2.drop (args2.length - nd)).zip a.defaults).map (fun q => (PName.str q.1, q.2)))
    else (args2, [])
  let args4 := step3.1 ++ (match a.kwarg with | some k => ["**" ++ k] | none => [])
  let args5 := if a.kwonlyargs ≠ [] then args4 ++ ["*"] ++ a.kwonlyargs else args4
  let nk := a.kw_defaults.length
  if 0 < nk then do
    let extra ← ((step3.2.drop (step3.2.length - nk)).zip a.kw_defaults).mapM
        (fun q => match q.2 with
          | none => Except.error "AttributeError: NoneType has no lineno"
          | some s => Except.ok (PName.pair q.1.1 q.1.2, s))
    Except.ok (args5.take (args5.length - nk), step3.2 ++ extra)
  else Except.ok (args5, step3.2)

/-- `DefinitionInfo` as actually produced by the definition-parsing path:
same shape as `DefinitionInfo`, but parameter names are `PName` because
`get_parameters` can put tuples in name position. -/
structure RawDefinitionInfo where
  function_name : String
  is_method : Bool
  args_with_defaults : List (PName × Option String)
  args_arg : Option String
  keywords_arg : Option String
  deriving Repr, DecidableEq

/-- The body of `DefinitionInfo._read` downstream of `get_parameters`
(lines 42-58): strip `**`/`*` from the tail of `args`, then concatenate
plain names (no default) with the default pairs. -/
def rawDefRead (function_name : String) (is_method : Bool)
    (parsed : List String × List (PName × String)) : RawDefinitionInfo :=
  let s := stripStars parsed.1
  { function_name := function_name
    is_method := is_method
    args_with_defaults :=
      s.1.map (fun n => (PName.str n, none)) ++ parsed.2.map (fun q => (q.1, some q.2))
    args_arg := s.2.1
    keywords_arg := s.2.2 }

/-- The full `DefinitionInfo._read` chain (lines 35-58): parser
construction (which indexes the closing paren — `_FunctionDefParser.__init__`
passes `is_lambda=False` to the base parser unconditionally, line 248),
`get_parameters`, then `_read`'s stripping. -/
def DefinitionInfo.readRaw (call : List Char) (a : AstArguments) (is_method : Bool) :
    Except String RawDefinitionInfo := do
  let p ← baseParserInit call is_method false
  let parsed ← defGetParameters a
  Except.ok (rawDefRead p.getFunctionName is_method parsed)

/-! ## Auxiliary definition used in theorem statements -/

/-- Lookup in the pairing of a name list with an argument list (the
positional phase of `ArgumentMapping.__init__` binds exactly these pairs). -/
def zipFind (names : List String) (args : List String) (n : String) : Option String :=
  ((names.zip args).find? (fun q => q.1 == n)).map Prod.snd

/-! ## Concrete instances used by the claims -/

/-- `f(a, b, *rest)` (claim C5). -/
def exDefAB : DefinitionInfo := ⟨"f", false, [("a", none), ("b", none)], some "rest", none⟩

/-- The edited definition `f(a, b, c, *rest)` (claim C5). -/
def exDefABC : DefinitionInfo :=
  ⟨"f", false, [("a", none), ("b", none), ("c", none)], some "rest", none⟩

/-- The call `f(1, 2, 3)` (claim C5). -/
def exCall123 : CallInfo := ⟨"f", ["1", "2", "3"], [], none, none, false, false⟩

/-- `f(a, b, c)` (claim C2). -/
def exDefABCplain : DefinitionInfo :=
  ⟨"f", false, [("a", none), ("b", none), ("c", none)], none, none⟩

/-- The call `f(1, c=3)`, binding only `a` and `c` (claim C2). -/
def exCallAC : CallInfo := ⟨"f", ["1"], [("c", "3")], none, none, false, false⟩

/-- `f(a)` (claim C4). -/
def exDefA : DefinitionInfo := ⟨"f", false, [("a", none)], none, none⟩

/-- The call `f(1)` (claim C4). -/
def exCallOne : CallInfo := ⟨"f", ["1"], [], none, none, false, false⟩

/-- `f(a)` with the parameter renamed to `x` (claim C4). -/
def exDefX : DefinitionInfo := ⟨"f", false, [("x", none)], none, none⟩

/-- A constructor's definition `Cls(self)` (claim C3). -/
def exDefSelf : DefinitionInfo := ⟨"Cls", true, [("self", none)], none, none⟩

/-- `f(a, b)` (claim C1 witness). -/
def exDefABplain : DefinitionInfo := ⟨"f", false, [("a", none), ("b", none)], none, none⟩

/-- The call `f(1, b=2)` (claim C1 witness). -/
def exCallPosKw : CallInfo := ⟨"f", ["1"], [("b", "2")], none, none, false, false⟩

/-- ast of the call `f(x, **d)`: the keyword-spread is an `ast.keyword`
with `arg=None` (claim C6). -/
def exAstCallSpread : AstCall := ⟨["x"], [(none, "d")]⟩

/-- ast of the call `obj.method(1, 2)` (claim C9). -/
def exAstCallTwo : AstCall := ⟨["1", "2"], []⟩

/-- ast of the constructor call `Cls(1)` (claim C3 witness). -/
def exAstCallCtor : AstCall := ⟨["1"], []⟩

/-- ast arguments of `def f(b=1, *c):` (claim C7). -/
def exAstArgsDefaultVararg : AstArguments := ⟨[], ["b"], some "c", ["1"], none, [], []⟩

/-- ast arguments of `def f(a, *, b):` (claim C8). -/
def exAstArgsKwonly : AstArguments := ⟨[], ["a"], none, [], none, ["b"], [none]⟩

/-- The `param_dict` that `ArgumentMapping.__init__` computes from a
parameter list and a call's positional/keyword argument lists
(abbreviation used to state the round-trip theorems). -/
def buildDict (P : List (String × Option String)) (cargs : List String)
    (ckws : List (String × String)) : List (String × String) :=
  (bindKw P ckws (bindPos P cargs []).1).1

/-- The positional overflow (`args_arg`) of `ArgumentMapping.__init__`. -/
def buildOvp (P : List (String × Option String)) (cargs : List String) : List String :=
  (bindPos P cargs []).2

/-- The keyword overflow (`keyword_args`) of `ArgumentMapping.__init__`. -/
def buildOvk (P : List (String × Option String)) (cargs : List String)
    (ckws : List (String × String)) : List (String × String) :=
  (bindKw P ckws (bindPos P cargs []).1).2

/-- The positional argument list `to_call_info` renders: the parameter
walk's positional part followed by the positional overflow. -/
def renderArgs (P : List (String × Option String)) (dict : List (String × String))
    (ovp : List String) : List String :=
  (walkParams dict (P.map Prod.fst)).1 ++ ovp

/-- The keyword argument list `to_call_info` renders: the parameter walk's
keyword part followed by the keyword overflow. -/
def renderKws (P : List (String × Option String)) (dict : List (String × String))
    (ovk : List (String × String)) : List (String × String) :=
  (walkParams dict (P.map Prod.fst)).2 ++ ovk

/-! # Theorems

First a toolbox of lemmas on the binding/rendering primitives, then one
theorem per claim of the specification. -/

@[simp] theorem dictFind_nil (n : String) : dictFind [] n = none := rfl

@[simp] theorem dictFind_cons (k v : String) (rest : List (String × String)) (n : String) :
    dictFind ((k, v) :: rest) n = if k = n then some v else dictFind rest n := rfl

theorem dictFind_insert_self (d : List (String × String)) (k v : String) :
    dictFind (dictInsert d k v) k = some v := by
  induction d with
  | nil => simp [dictInsert]
  | cons p rest ih =>
    obtain ⟨k', v'⟩ := p
    by_cases h : k' = k <;> simp [dictInsert, h, ih]

theorem dictFind_insert_ne (d : List (String × String)) (k v n : String) (h : k ≠ n) :
    dictFind (dictInsert d k v) n = dictFind d n := by
  induction d with
  | nil => simp [dictInsert, h]
  | cons p rest ih =>
    obtain ⟨k', v'⟩ := p
    by_cases h' : k' = k
    · subst h'
      simp [dictInsert, h]
    · simp [dictInsert, h', ih]

theorem len_filterMap_isSome {α β : Type} (f : α → Option β) :
    ∀ (l : List α), (∀ x ∈ l, (f x).isSome) → (l.filterMap f).length = l.length := by
  intro l
  induction l with
  | nil => intro _; rfl
  | cons a rest ih =>
    intro h
    have ha := h a (by simp)
    obtain ⟨b, hb⟩ := Option.isSome_iff_exists.mp ha
    rw [List.filterMap_cons, hb]
    simp only [List.length_cons]
    rw [ih (fun x hx => h x (by simp [hx]))]

theorem zip_append_of_len_left {α β : Type} :
    ∀ (l₁ : List α) (l₂ l₃ : List β), l₂.length = l₁.length →
      l₁.zip (l₂ ++ l₃) = l₁.zip l₂
  | [], _, _, _ => by simp [List.zip]
  | a :: t₁, [], l₃, h => by simp at h
  | a :: t₁, b :: t₂, l₃, h => by
    simp only [List.cons_append, List.zip_cons_cons, List.cons.injEq, true_and]
    exact zip_append_of_len_left t₁ t₂ l₃ (by simpa using h)

theorem zip_append_of_len_right {α β : Type} :
    ∀ (l₁ : List α) (l₂ : List α) (l₃ : List β), l₃.length = l₁.length →
      (l₁ ++ l₂).zip l₃ = l₁.zip l₃
  | [], l₂, [], _ => by simp
  | [], l₂, b :: t₃, h => by simp at h
  | a :: t₁, l₂, [], h => by simp at h
  | a :: t₁, l₂, b :: t₃, h => by
    simp only [List.cons_append, List.zip_cons_cons, List.cons.injEq, true_and]
    exact zip_append_of_len_right t₁ l₂ t₃ (by simpa using h)

theorem mem_takeWhile_pred {α : Type} (p : α → Bool) :
    ∀ (l : List α) (x : α), x ∈ l.takeWhile p → p x = true := by
  intro l
  induction l with
  | nil => intro x hx; simp [List.takeWhile] at hx
  | cons a rest ih =>
    intro x hx
    by_cases ha : p a
    · rw [List.takeWhile_cons_of_pos ha] at hx
      rcases List.mem_cons.mp hx with h | h
      · exact h ▸ ha
      · exact ih x h
    · rw [List.takeWhile_cons_of_neg ha] at hx
      simp at hx

theorem takeWhile_eq_self_of_all {α : Type} (p : α → Bool) :
    ∀ (l : List α), (∀ x ∈ l, p x = true) → l.takeWhile p = l := by
  intro l
  induction l with
  | nil => intro _; rfl
  | cons a rest ih =>
    intro h
    rw [List.takeWhile_cons_of_pos (h a (by simp))]
    rw [ih (fun x hx => h x (by simp [hx]))]

theorem dropWhile_eq_nil_of_all {α : Type} (p : α → Bool) :
    ∀ (l : List α), (∀ x ∈ l, p x = true) → l.dropWhile p = [] := by
  intro l
  induction l with
  | nil => intro _; rfl
  | cons a rest ih =>
    intro h
    rw [List.dropWhile_cons_of_pos (h a (by simp))]
    exact ih (fun x hx => h x (by simp [hx]))

theorem zipFind_eq_none_of_not_mem :
    ∀ (names args : List String) (n : String), n ∉ names → zipFind names args n = none := by
  intro names
  induction names with
  | nil => intro args n _; simp [zipFind]
  | cons m rest ih =>
    intro args n hn
    match args with
    | [] => simp [zipFind]
    | a :: as =>
      have hmn : (m == n) = false := by
        simp only [beq_eq_false_iff_ne]
        intro h
        exact hn (by simp [h])
      have := ih as n (fun h => hn (by simp [h]))
      simp only [zipFind, List.zip_cons_cons, List.find?_cons, hmn] at this ⊢
      exact this

theorem zipFind_filterMap (g : String → Option String) :
    ∀ (l : List String) (n : String), (∀ x ∈ l, (g x).isSome) → n ∈ l →
      zipFind l (l.filterMap g) n = g n := by
  intro l
  induction l with
  | nil => intro n _ hn; simp at hn
  | cons m rest ih =>
    intro n hall hn
    obtain ⟨b, hb⟩ := Option.isSome_iff_exists.mp (hall m (by simp))
    by_cases hmn : m = n
    · subst hmn
      simp [zipFind, List.filterMap_cons, hb, List.find?_cons]
    · have hn' : n ∈ rest := by
        rcases List.mem_cons.mp hn with h | h
        · exact absurd h.symm hmn
        · exact h
      have hmn' : (m == n) = false := by simp [hmn]
      have := ih n (fun x hx => hall x (by simp [hx])) hn'
      simp only [zipFind, List.filterMap_cons, hb, List.zip_cons_cons, List.find?_cons,
        hmn'] at this ⊢
      exact this

theorem zipFind_isSome_of_mem :
    ∀ (names args : List String) (n : String), n ∈ names → names.length ≤ args.length →
      (zipFind names args n).isSome := by
  intro names
  induction names with
  | nil => intro args n hn _; simp at hn
  | cons m rest ih =>
    intro args n hn hlen
    match args with
    | [] => simp at hlen
    | a :: as =>
      by_cases hmn : m = n
      · simp [zipFind, List.zip_cons_cons, List.find?_cons, hmn]
      · have hmn' : (m == n) = false := by simp [hmn]
        have hn' : n ∈ rest := by
          rcases List.mem_cons.mp hn with h | h
          · exact absurd h.symm hmn
          · exact h
        have := ih as n hn' (by simpa using hlen)
        simp only [zipFind, List.zip_cons_cons, List.find?_cons, hmn'] at this ⊢
        exact this

theorem bindPos_snd :
    ∀ (params : List (String × Option String)) (args : List String) (d : List (String × String)),
      (bindPos params args d).2 = args.drop params.length
  | _, [], d => by cases ‹List (String × Option String)› <;> simp [bindPos]
  | [], a :: as, d => by simp [bindPos]
  | p :: ps, a :: as, d => by
    simp only [bindPos, List.length_cons, List.drop_succ_cons]
    exact bindPos_snd ps as (dictInsert d p.1 a)

theorem dictFind_bindPos_of_none :
    ∀ (params : List (String × Option String)) (args : List String) (d : List (String × String))
      (n : String), zipFind (params.map Prod.fst) args n = none →
      dictFind (bindPos params args d).1 n = dictFind d n
  | params, [], d, n, _ => by cases params <;> simp [bindPos]
  | [], a :: as, d, n, _ => by simp [bindPos]
  | p :: ps, a :: as, d, n, h => by
    have hpn : (p.1 == n) = false := by
      by_contra hc
      have : (p.1 == n) = true := by
        cases hb : (p.1 == n)
        · exact absurd hb hc
        · rfl
      simp [zipFind, List.zip_cons_cons, List.find?_cons, this] at h
    have hrest : zipFind (ps.map Prod.fst) as n = none := by
      simp only [zipFind, List.map_cons, List.zip_cons_cons, List.find?_cons, hpn] at h
      simpa [zipFind] using h
    simp only [bindPos]
    rw [dictFind_bindPos_of_none ps as (dictInsert d p.1 a) n hrest]
    exact dictFind_insert_ne d p.1 a n (by simpa using hpn)

theorem dictFind_bindPos_of_some :
    ∀ (params : List (String × Option String)) (args : List String) (d : List (String × String))
      (n v : String), (params.map Prod.fst).Nodup →
      zipFind (params.map Prod.fst) args n = some v →
      dictFind (bindPos params args d).1 n = some v
  | params, [], d, n, v, _, h => by simp [zipFind] at h
  | [], a :: as, d, n, v, _, h => by simp [zipFind] at h
  | p :: ps, a :: as, d, n, v, hnd, h => by
    rw [List.map_cons] at hnd
    have hnd1 := (List.nodup_cons.mp hnd).1
    have hnd2 := (List.nodup_cons.mp hnd).2
    by_cases hpn : p.1 = n
    · subst hpn
      have hva : a = v := by
        simpa [zipFind, List.zip_cons_cons, List.find?_cons] using h
      subst hva
      have hzip : zipFind (ps.map Prod.fst) as p.1 = none :=
        zipFind_eq_none_of_not_mem (ps.map Prod.fst) as p.1 hnd1
      simp only [bindPos]
      rw [dictFind_bindPos_of_none ps as (dictInsert d p.1 a) p.1 hzip]
      exact dictFind_insert_self d p.1 a
    · have hpn' : (p.1 == n) = false := by simp [hpn]
      have hrest : zipFind (ps.map Prod.fst) as n = some v := by
        simp only [zipFind, List.map_cons, List.zip_cons_cons, List.find?_cons, hpn'] at h
        simpa [zipFind] using h
      simp only [bindPos]
      exact dictFind_bindPos_of_some ps as (dictInsert d p.1 a) n v hnd2 hrest

theorem bindKw_snd (params : List (String × Option String)) :
    ∀ (ks : List (String × String)) (d : List (String × String)),
      (bindKw params ks d).2 = ks.filter (fun q => !(params.any (fun p => p.1 == q.1))) := by
  intro ks
  induction ks with
  | nil => intro d; simp [bindKw]
  | cons q rest ih =>
    intro d
    obtain ⟨n, v⟩ := q
    by_cases hm : params.any (fun p => p.1 == n)
    · simp [bindKw, hm, List.filter_cons, ih]
    · have hm' : params.any (fun p => p.1 == n) = false := by
        cases hb : params.any (fun p => p.1 == n)
        · rfl
        · exact absurd hb hm
      simp [bindKw, hm', List.filter_cons, ih]

theorem dictFind_bindKw_of_unmatched (params : List (String × Option String)) :
    ∀ (ks : List (String × String)) (d : List (String × String)) (n : String),
      params.any (fun p => p.1 == n) = false →
      dictFind (bindKw params ks d).1 n = dictFind d n := by
  intro ks
  induction ks with
  | nil => intro d n _; simp [bindKw]
  | cons q rest ih =>
    intro d n hn
    obtain ⟨m, w⟩ := q
    by_cases hm : params.any (fun p => p.1 == m)
    · have hmn : m ≠ n := by
        intro h
        rw [h] at hm
        rw [hn] at hm
        simp at hm
      simp only [bindKw, hm, if_true]
      rw [ih (dictInsert d m w) n hn]
      exact dictFind_insert_ne d m w n hmn
    · have hm' : params.any (fun p => p.1 == m) = false := by
        cases hb : params.any (fun p => p.1 == m)
        · rfl
        · exact absurd hb hm
      simp only [bindKw, hm', Bool.false_eq_true, if_false]
      exact ih d n hn

theorem dictFind_bindKw_of_nokw (params : List (String × Option String)) :
    ∀ (ks : List (String × String)) (d : List (String × String)) (n : String),
      (∀ v, (n, v) ∉ ks) →
      dictFind (bindKw params ks d).1 n = dictFind d n := by
  intro ks
  induction ks with
  | nil => intro d n _; simp [bindKw]
  | cons q rest ih =>
    intro d n hn
    obtain ⟨m, w⟩ := q
    have hmn : m ≠ n := by
      intro h
      exact hn w (by simp [h])
    have hrest : ∀ v, (n, v) ∉ rest := by
      intro v hv
      exact hn v (by simp [hv])
    by_cases hm : params.any (fun p => p.1 == m)
    · simp only [bindKw, hm, if_true]
      rw [ih (dictInsert d m w) n hrest]
      exact dictFind_insert_ne d m w n hmn
    · have hm' : params.any (fun p => p.1 == m) = false := by
        cases hb : params.any (fun p => p.1 == m)
        · rfl
        · exact absurd hb hm
      simp only [bindKw, hm', Bool.false_eq_true, if_false]
      exact ih d n hrest

theorem dictFind_bindKw_of_mem (params : List (String × Option String)) :
    ∀ (ks : List (String × String)) (d : List (String × String)) (n v : String),
      (ks.map Prod.fst).Nodup → (n, v) ∈ ks →
      params.any (fun p => p.1 == n) = true →
      dictFind (bindKw params ks d).1 n = some v := by
  intro ks
  induction ks with
  | nil => intro d n v _ hv _; simp at hv
  | cons q rest ih =>
    intro d n v hnd hv hm
    obtain ⟨m, w⟩ := q
    rw [List.map_cons] at hnd
    have hnd1 := (List.nodup_cons.mp hnd).1
    have hnd2 := (List.nodup_cons.mp hnd).2
    have hnd1' : m ∉ rest.map Prod.fst := by simpa using hnd1
    by_cases hmn : m = n
    · subst hmn
      have hvw : w = v := by
        rcases List.mem_cons.mp hv with h | h
        · have h2 : v = w := by simpa using h
          exact h2.symm
        · exact absurd (by simpa using List.mem_map_of_mem Prod.fst h) hnd1'
      have hrest : ∀ u, (m, u) ∉ rest := by
        intro u hu
        exact hnd1' (by simpa using List.mem_map_of_mem Prod.fst hu)
      simp only [bindKw, hm, if_true]
      rw [dictFind_bindKw_of_nokw params rest (dictInsert d m w) m hrest]
      rw [← hvw]
      exact dictFind_insert_self d m w
    · have hv' : (n, v) ∈ rest := by
        rcases List.mem_cons.mp hv with h | h
        · injection h with h1 h2
          exact absurd h1.symm hmn
        · exact h
      by_cases hmm : params.any (fun p => p.1 == m)
      · simp only [bindKw, hmm, if_true]
        exact ih (dictInsert d m w) n v hnd2 hv' hm
      · have hmm' : params.any (fun p => p.1 == m) = false := by
          cases hb : params.any (fun p => p.1 == m)
          · rfl
          · exact absurd hb hmm
        simp only [bindKw, hmm', Bool.false_eq_true, if_false]
        exact ih d n v hnd2 hv' hm

theorem walkParams_fst (dict : List (String × String)) :
    ∀ (names : List String),
      (walkParams dict names).1 =
        (names.takeWhile (fun n => (dictFind dict n).isSome)).filterMap (dictFind dict) := by
  intro names
  induction names with
  | nil => rfl
  | cons n rest ih =>
    cases h : dictFind dict n with
    | some v =>
      rw [List.takeWhile_cons_of_pos (by simp [h])]
      rw [List.filterMap_cons]
      simp only [walkParams, h, ih]
    | none =>
      rw [List.takeWhile_cons_of_neg (by simp [h])]
      simp only [walkParams, h, List.filterMap_nil]

theorem walkParams_snd (dict : List (String × String)) :
    ∀ (names : List String),
      (walkParams dict names).2 =
        (names.dropWhile (fun n => (dictFind dict n).isSome)).filterMap
          (fun m => (dictFind dict m).map (fun v => (m, v))) := by
  intro names
  induction names with
  | nil => rfl
  | cons n rest ih =>
    cases h : dictFind dict n with
    | some v =>
      rw [List.dropWhile_cons_of_pos (by simp [h])]
      simp only [walkParams, h, ih]
    | none =>
      rw [List.dropWhile_cons_of_neg (by simp [h])]
      simp only [walkParams, h]

/-! ## Claim theorems -/

/-- Claim C2: single-pass gap-triggers-keyword rendering.  `to_call_info`
emits positionally exactly the longest prefix of the target definition's
parameters that are all bound; from the first unbound parameter on, every
bound parameter is emitted as a keyword argument and unbound ones are
skipped, with no further positional emission.  In particular, for
parameters `(a, b, c)` with bindings only for `a` and `c`, rendering
yields `a` positionally, `c` as a keyword argument, and omits `b`. -/
theorem claim_c2_single_pass_gap_keyword :
    (∀ (m : ArgumentMapping) (d : DefinitionInfo),
      (m.to_call_info d).args =
        ((d.args_with_defaults.map Prod.fst).takeWhile
            (fun n => (dictFind m.param_dict n).isSome)).filterMap (dictFind m.param_dict)
          ++ m.args_arg
      ∧ (m.to_call_info d).keywords =
        ((d.args_with_defaults.map Prod.fst).dropWhile
            (fun n => (dictFind m.param_dict n).isSome)).filterMap
          (fun n => (dictFind m.param_dict n).map (fun v => (n, v)))
          ++ m.keyword_args)
    ∧ ((ArgumentMapping.build exDefABCplain exCallAC).to_call_info exDefABCplain).args = ["1"]
    ∧ ((ArgumentMapping.build exDefABCplain exCallAC).to_call_info exDefABCplain).keywords
        = [("c", "3")] := by
  refine ⟨fun m d => ⟨?_, ?_⟩, rfl, rfl⟩
  · show (walkParams m.param_dict (d.args_with_defaults.map Prod.fst)).1 ++ m.args_arg = _
    rw [walkParams_fst]
  · show (walkParams m.param_dict (d.args_with_defaults.map Prod.fst)).2 ++ m.keyword_args = _
    rw [walkParams_snd]

/-- Claim C5: overflow routing.  Binding `f(1, 2, 3)` against
`f(a, b, *rest)` yields `a ↦ 1`, `b ↦ 2` and positional overflow `[3]`;
rendering against the edited `f(a, b, c, *rest)` (with `c` unbound) still
emits `3` as an overflow positional argument, appended after the parameter
walk (in general, the rendered positional list is always the walk's output
followed by the overflow), and no keyword-form arguments are emitted for
this input, so the rendered text is `f(1, 2, 3)`. -/
theorem claim_c5_overflow_routing :
    dictFind (ArgumentMapping.build exDefAB exCall123).param_dict "a" = some "1"
    ∧ dictFind (ArgumentMapping.build exDefAB exCall123).param_dict "b" = some "2"
    ∧ (ArgumentMapping.build exDefAB exCall123).args_arg = ["3"]
    ∧ ((ArgumentMapping.build exDefAB exCall123).to_call_info exDefABC).args = ["1", "2", "3"]
    ∧ ((ArgumentMapping.build exDefAB exCall123).to_call_info exDefABC).keywords = []
    ∧ ((ArgumentMapping.build exDefAB exCall123).to_call_info exDefABC).to_string
        = some "f(1, 2, 3)"
    ∧ (∀ (m : ArgumentMapping) (d : DefinitionInfo),
        (m.to_call_info d).args =
          (walkParams m.param_dict (d.args_with_defaults.map Prod.fst)).1 ++ m.args_arg) :=
  ⟨rfl, rfl, rfl, rfl, rfl, rfl, fun _ _ => rfl⟩

/-- Claim C9: method-call receiver extraction.  Parsing the call header
`obj.method(1, 2)` with `is_method_call = true` yields
`args = [obj, 1, 2]` (the dotted-primary receiver inserted at index 0),
`implicit_arg = true`, and callee name `method` (the bare identifier). -/
theorem claim_c9_method_receiver :
    CallInfo.read "obj.method(1, 2)".data exAstCallTwo true false false exDefAB =
      Except.ok ⟨"method", ["obj", "1", "2"], [], none, none, true, false⟩ := rfl

/-- Claim C7 (refuting theorem, code bug): for the header `f(b=1, *c)`
the parser pairs the default text `1` with the variadic name `*c` instead
of with `b` (the `*c` entry is appended to `args` before the trailing
`len(defaults)` entries are zipped with the defaults), and the resulting
definition model leaves `b` without a default and loses the
variadic-positional parameter entirely. -/
theorem claim_c7_default_misattributed :
    defGetParameters exAstArgsDefaultVararg = Except.ok (["b"], [(PName.str "*c", "1")])
    ∧ rawDefRead "f" false (["b"], [(PName.str "*c", "1")]) =
        ⟨"f", false, [(PName.str "b", none), (PName.str "*c", some "1")], none, none⟩ :=
  ⟨rfl, rfl⟩

/-- Claim C8 (refuting theorem, code bug): for the header `f(a, *, b)` the
parser appends `"*"` and the keyword-only name `b` to `args` but then
deletes the trailing `len(kw_defaults)` entries, dropping `b`; the leftover
bare `"*"` is later misread by `_read` as a variadic-positional parameter
named `""`.  The keyword-only parameter never reaches the parameter
sequence. -/
theorem claim_c8_kwonly_dropped :
    defGetParameters exAstArgsKwonly = Except.ok (["a", "*"], [])
    ∧ (defGetParameters exAstArgsKwonly).map (rawDefRead "f" false) =
        Except.ok ⟨"f", false, [(PName.str "a", none)], some "", none⟩ :=
  ⟨rfl, rfl⟩

/-- Claim C4 (counterexample): binding `f(1)` against `f(a)` binds `a ↦ 1`,
but rendering that mapping against the definition with the parameter
renamed to `x` produces a call with no arguments at all — the renamed slot
does not receive the argument text `1`, refuting parameter-rename
invariance. -/
theorem claim_c4_counterexample :
    dictFind (ArgumentMapping.build exDefA exCallOne).param_dict "a" = some "1"
    ∧ (ArgumentMapping.build exDefA exCallOne).to_call_info exDefX =
        ⟨"f", [], [], none, none, false, false⟩ :=
  ⟨rfl, rfl⟩

theorem rindexAux_eq_none (t : Char) :
    ∀ (cs : List Char) (i : Nat), t ∉ cs → rindexAux cs t i = none := by
  intro cs
  induction cs with
  | nil => intro i _; rfl
  | cons c rest ih =>
    intro i h
    have hc : c ≠ t := fun he => h (by simp [he])
    have hr : t ∉ rest := fun hm => h (by simp [hm])
    simp only [rindexAux, ih (i + 1) hr]
    simp [hc]

theorem namedKeywords_error :
    ∀ (items : List (Option String × String)) (v : String), (none, v) ∈ items →
      namedKeywords items = Except.error "AssertionError: kw.arg" := by
  intro items
  induction items with
  | nil => intro v h; simp at h
  | cons q rest ih =>
    intro v h
    match q with
    | (none, w) => rfl
    | (some n, w) =>
      have hv : (none, v) ∈ rest := by
        rcases List.mem_cons.mp h with he | hm
        · exact absurd he (by simp)
        · exact hm
      show (do
        let r ← namedKeywords rest
        Except.ok ((n, w) :: r)) = Except.error "AssertionError: kw.arg"
      rw [ih v hv]
      rfl

/-- Claim C10: hard failure on malformed input.  For any call fragment
with no closing parenthesis at all (such as `f(1, 2`), both the call path
(`CallInfo.read`) and the definition path fail — `str.rindex` raises
before any model is built — and no partial `CallInfo` or
`RawDefinitionInfo` is ever returned. -/
theorem claim_c10_unterminated_fragment_fails (call : List Char) (h : ')' ∉ call) :
    (∀ (astc : AstCall) (m cm ctor : Bool) (D : DefinitionInfo),
      CallInfo.read call astc m cm ctor D = Except.error "ValueError: substring not found")
    ∧ (∀ (a : AstArguments) (meth : Bool),
      DefinitionInfo.readRaw call a meth = Except.error "ValueError: substring not found") := by
  have hr : rindexChar call ')' = none := rindexAux_eq_none ')' call 0 h
  constructor
  · intro astc m cm ctor D
    unfold CallInfo.read
    rw [show baseParserInit call (m || cm) false
        = Except.error "ValueError: substring not found" from by
      simp [baseParserInit, hr]]
    rfl
  · intro a meth
    unfold DefinitionInfo.readRaw
    rw [show baseParserInit call meth false
        = Except.error "ValueError: substring not found" from by
      simp [baseParserInit, hr]]
    rfl

/-- Claim C10 witness: the unterminated fragment `f(1, 2` fails on both
paths. -/
theorem claim_c10_witness :
    CallInfo.read "f(1, 2".data ⟨["1", "2"], []⟩ false false false exDefAB
      = Except.error "ValueError: substring not found" :=
  (claim_c10_unterminated_fragment_fails "f(1, 2".data (by decide)).1 ⟨["1", "2"], []⟩
    false false false exDefAB

/-- Claim C6 (refuting theorem, code bug): a call whose ast contains a
keyword item without a name — which is exactly what a keyword-spread
`**d` parses to — makes `CallInfo.read` fail (the `assert kw.arg` in
`get_parameters`); the spread text is never captured as the keyword
spread, so the `**`-stripping branch of `CallInfo.read` is unreachable
through this parser. -/
theorem claim_c6_keyword_spread_asserts (call : List Char) (astc : AstCall)
    (m cm ctor : Bool) (D : DefinitionInfo) (v : String)
    (h : (none, v) ∈ astc.keywordItems) :
    ∃ e, CallInfo.read call astc m cm ctor D = Except.error e := by
  cases hinit : baseParserInit call (m || cm) false with
  | error e =>
    refine ⟨e, ?_⟩
    unfold CallInfo.read
    rw [hinit]
    rfl
  | ok p =>
    refine ⟨"AssertionError: kw.arg", ?_⟩
    unfold CallInfo.read callGetParameters
    rw [hinit]
    rw [namedKeywords_error astc.keywordItems v h]
    rfl

/-- Claim C6 witness: parsing `f(x, **d)` (whose keyword-spread is an
unnamed ast keyword) fails instead of capturing `d`. -/
theorem claim_c6_witness :
    ∃ e, CallInfo.read "f(x, **d)".data exAstCallSpread false false false exDefAB
      = Except.error e :=
  claim_c6_keyword_spread_asserts "f(x, **d)".data exAstCallSpread false false false exDefAB
    "d" (by simp [exAstCallSpread])

theorem exceptBind_ok {A B : Type} (a : A) (f : A → Except String B) :
    (Except.ok a : Except String A) >>= f = f a := rfl

/-- Claim C3: constructor-call synthetic argument placement.  For a
constructor call (`is_constructor = true`, so the parser's implicit-arg
flag is false), the call parser itself inserts no synthetic argument —
its positional output is exactly the ast's argument slices — and it is
`CallInfo.read` (the parser's consumer) that prepends the definition's
first parameter name as a synthetic positional argument before any
mapping is built. -/
theorem claim_c3_constructor_synthetic (call : List Char) (lp fp : Nat)
    (astc : AstCall) (kw : List (String × String)) (D : DefinitionInfo)
    (p0 : String × Option String) (rest : List (String × Option String))
    (hr : rindexChar call ')' = some lp)
    (hf : findParensStart call lp = some fp)
    (hkw : namedKeywords astc.keywordItems = Except.ok kw)
    (hD : D.args_with_defaults = p0 :: rest) :
    callGetParameters ⟨call, false, lp, fp⟩ astc = Except.ok (astc.argTexts, kw)
    ∧ CallInfo.read call astc false false true D =
        Except.ok
          { function_name := BaseParser.getFunctionName ⟨call, false, lp, fp⟩
            args := p0.1 :: (stripStars astc.argTexts).1
            keywords := kw
            args_arg := (stripStars astc.argTexts).2.1
            keywords_arg := (stripStars astc.argTexts).2.2
            implicit_arg := false
            constructor := true } := by
  have hparams : callGetParameters ⟨call, false, lp, fp⟩ astc
      = Except.ok (astc.argTexts, kw) := by
    unfold callGetParameters
    rw [hkw]
    simp only [exceptBind_ok, BaseParser.isCalledAsAMethod]
    rfl
  refine ⟨hparams, ?_⟩
  have hinit : baseParserInit call (false || false) false
      = Except.ok ⟨call, false, lp, fp⟩ := by
    simp [baseParserInit, hr, hf]
  unfold CallInfo.read
  rw [hinit, exceptBind_ok]
  rw [hparams, exceptBind_ok]
  rw [hD]
  rfl

/-- Claim C3 witness: the constructor call `Cls(1)` against `Cls(self)`
is parsed with no synthetic parser argument, and `CallInfo.read` prepends
`self`, giving args `[self, 1]`. -/
theorem claim_c3_witness :
    CallInfo.read "Cls(1)".data exAstCallCtor false false true exDefSelf =
      Except.ok
        { function_name := BaseParser.getFunctionName ⟨"Cls(1)".data, false, 5, 3⟩
          args := "self" :: (stripStars exAstCallCtor.argTexts).1
          keywords := []
          args_arg := (stripStars exAstCallCtor.argTexts).2.1
          keywords_arg := (stripStars exAstCallCtor.argTexts).2.2
          implicit_arg := false
          constructor := true } :=
  (claim_c3_constructor_synthetic "Cls(1)".data 5 3 exAstCallCtor [] exDefSelf
    ("self", none) [] rfl rfl rfl rfl).2

theorem dictFind_insert_isSome (d : List (String × String)) (k v n : String)
    (h : (dictFind d n).isSome) : (dictFind (dictInsert d k v) n).isSome := by
  by_cases hk : k = n
  · subst hk
    rw [dictFind_insert_self]
    rfl
  · rw [dictFind_insert_ne d k v n hk]
    exact h

theorem dictFind_bindKw_isSome_mono (params : List (String × Option String)) :
    ∀ (ks : List (String × String)) (d : List (String × String)) (n : String),
      (dictFind d n).isSome → (dictFind (bindKw params ks d).1 n).isSome := by
  intro ks
  induction ks with
  | nil => intro d n h; exact h
  | cons q rest ih =>
    intro d n h
    obtain ⟨m, w⟩ := q
    by_cases hm : params.any (fun p => p.1 == m)
    · simp only [bindKw, hm, if_true]
      exact ih (dictInsert d m w) n (dictFind_insert_isSome d m w n h)
    · have hm' : params.any (fun p => p.1 == m) = false := by
        cases hb : params.any (fun p => p.1 == m)
        · rfl
        · exact absurd hb hm
      simp only [bindKw, hm', Bool.false_eq_true, if_false]
      exact ih d n h

theorem map_fst_filterMap_kwp (dict : List (String × String)) :
    ∀ (l : List String),
      (l.filterMap (fun m => (dictFind dict m).map (fun v => (m, v)))).map Prod.fst
        = l.filter (fun m => (dictFind dict m).isSome) := by
  intro l
  induction l with
  | nil => rfl
  | cons a rest ih =>
    cases h : dictFind dict a with
    | some v => simp [List.filterMap_cons, h, List.filter_cons, ih]
    | none => simp [List.filterMap_cons, h, List.filter_cons, ih]

theorem mem_filterMap_kwp_iff (dict : List (String × String)) (l : List String)
    (n v : String) :
    (n, v) ∈ l.filterMap (fun m => (dictFind dict m).map (fun w => (m, w)))
      ↔ n ∈ l ∧ dictFind dict n = some v := by
  rw [List.mem_filterMap]
  constructor
  · rintro ⟨m, hm, hmap⟩
    cases h : dictFind dict m with
    | some w =>
      rw [h] at hmap
      simp only [Option.map_some'] at hmap
      have hpair := Option.some.inj hmap
      have h1 : m = n := congrArg Prod.fst hpair
      have h2 : w = v := congrArg Prod.snd hpair
      subst h1
      subst h2
      exact ⟨hm, h⟩
    | none =>
      rw [h] at hmap
      simp at hmap
  · rintro ⟨hm, hfind⟩
    exact ⟨n, hm, by rw [hfind]; rfl⟩

theorem any_eq_true_of_mem_names (params : List (String × Option String)) (n : String)
    (h : n ∈ params.map Prod.fst) : params.any (fun p => p.1 == n) = true := by
  rw [List.any_eq_true]
  obtain ⟨p, hp, he⟩ := List.mem_map.mp h
  exact ⟨p, hp, by simp [he]⟩

theorem any_eq_false_of_not_mem_names (params : List (String × Option String)) (n : String)
    (h : n ∉ params.map Prod.fst) : params.any (fun p => p.1 == n) = false := by
  cases hb : params.any (fun p => p.1 == n)
  · rfl
  · obtain ⟨p, hp, he⟩ := List.any_eq_true.mp hb
    exact absurd (List.mem_map.mpr ⟨p, hp, by simpa using he⟩) h

theorem render_rebuild_core (P : List (String × Option String))
    (dict : List (String × String)) (ovp : List String) (ovk : List (String × String))
    (hnd : (P.map Prod.fst).Nodup)
    (h1 : ∀ n, n ∉ P.map Prod.fst → dictFind dict n = none)
    (h2 : ∀ q ∈ ovk, q.1 ∉ P.map Prod.fst)
    (h3 : (ovk.map Prod.fst).Nodup)
    (h4 : (∃ n ∈ P.map Prod.fst, dictFind dict n = none) → ovp = []) :
    (∀ n, dictFind (buildDict P (renderArgs P dict ovp) (renderKws P dict ovk)) n
        = dictFind dict n)
    ∧ buildOvp P (renderArgs P dict ovp) = ovp
    ∧ buildOvk P (renderArgs P dict ovp) (renderKws P dict ovk) = ovk := by
  classical
  have hA : renderArgs P dict ovp
      = ((P.map Prod.fst).takeWhile (fun n => (dictFind dict n).isSome)).filterMap (dictFind dict)
        ++ ovp := by
    show (walkParams dict (P.map Prod.fst)).1 ++ ovp = _
    rw [walkParams_fst]
  have hK : renderKws P dict ovk
      = ((P.map Prod.fst).dropWhile (fun n => (dictFind dict n).isSome)).filterMap
          (fun m => (dictFind dict m).map (fun v => (m, v))) ++ ovk := by
    show (walkParams dict (P.map Prod.fst)).2 ++ ovk = _
    rw [walkParams_snd]
  have htw_pred : ∀ n ∈ (P.map Prod.fst).takeWhile (fun n => (dictFind dict n).isSome),
      (dictFind dict n).isSome = true :=
    fun n hn => mem_takeWhile_pred _ _ n hn
  have hlenTW : ((((P.map Prod.fst).takeWhile
        (fun n => (dictFind dict n).isSome)).filterMap (dictFind dict))).length
      = ((P.map Prod.fst).takeWhile (fun n => (dictFind dict n).isSome)).length :=
    len_filterMap_isSome _ _ htw_pred
  have hlenN : (P.map Prod.fst).length = P.length := List.length_map _ _
  have hsplit : (P.map Prod.fst).takeWhile (fun n => (dictFind dict n).isSome)
      ++ (P.map Prod.fst).dropWhile (fun n => (dictFind dict n).isSome) = P.map Prod.fst :=
    List.takeWhile_append_dropWhile _ _
  -- the zip of the parameter names with the rendered argument list only
  -- pairs the bound prefix
  have hzip : (P.map Prod.fst).zip (renderArgs P dict ovp)
      = ((P.map Prod.fst).takeWhile (fun n => (dictFind dict n).isSome)).zip
        (((P.map Prod.fst).takeWhile (fun n => (dictFind dict n).isSome)).filterMap
          (dictFind dict)) := by
    rw [hA]
    by_cases hall : ∀ n ∈ P.map Prod.fst, (dictFind dict n).isSome = true
    · have hTW : (P.map Prod.fst).takeWhile (fun n => (dictFind dict n).isSome)
          = P.map Prod.fst := takeWhile_eq_self_of_all _ _ hall
      rw [zip_append_of_len_left (P.map Prod.fst) _ ovp (by rw [hlenTW, hTW])]
      rw [hTW]
    · push_neg at hall
      obtain ⟨n0, hn0, hpred0⟩ := hall
      have hovp0 : ovp = [] := h4 ⟨n0, hn0, by
        cases hx : dictFind dict n0
        · rfl
        · rw [hx] at hpred0; simp at hpred0⟩
      rw [hovp0, List.append_nil]
      calc (P.map Prod.fst).zip
            (((P.map Prod.fst).takeWhile (fun n => (dictFind dict n).isSome)).filterMap
              (dictFind dict))
          = (((P.map Prod.fst).takeWhile (fun n => (dictFind dict n).isSome))
              ++ ((P.map Prod.fst).dropWhile (fun n => (dictFind dict n).isSome))).zip
              (((P.map Prod.fst).takeWhile (fun n => (dictFind dict n).isSome)).filterMap
                (dictFind dict)) := by rw [hsplit]
        _ = _ := zip_append_of_len_right _ _ _ hlenTW
  have hzipFind : ∀ n, zipFind (P.map Prod.fst) (renderArgs P dict ovp) n
      = zipFind ((P.map Prod.fst).takeWhile (fun n => (dictFind dict n).isSome))
          (((P.map Prod.fst).takeWhile (fun n => (dictFind dict n).isSome)).filterMap
            (dictFind dict)) n := by
    intro n
    unfold zipFind
    rw [hzip]
  -- conclusion 2: the positional overflow round-trips
  have goal2 : buildOvp P (renderArgs P dict ovp) = ovp := by
    show (bindPos P (renderArgs P dict ovp) []).2 = ovp
    rw [bindPos_snd, hA]
    by_cases hall : ∀ n ∈ P.map Prod.fst, (dictFind dict n).isSome = true
    · have hTW : (P.map Prod.fst).takeWhile (fun n => (dictFind dict n).isSome)
          = P.map Prod.fst := takeWhile_eq_self_of_all _ _ hall
      have hlen' : ((((P.map Prod.fst).takeWhile
            (fun n => (dictFind dict n).isSome)).filterMap (dictFind dict))).length
          = P.length := by rw [hlenTW, hTW, hlenN]
      rw [← hlen', List.drop_left]
    · push_neg at hall
      obtain ⟨n0, hn0, hpred0⟩ := hall
      have hovp0 : ovp = [] := h4 ⟨n0, hn0, by
        cases hx : dictFind dict n0
        · rfl
        · rw [hx] at hpred0; simp at hpred0⟩
      rw [hovp0, List.append_nil]
      apply List.drop_eq_nil_of_le
      calc ((((P.map Prod.fst).takeWhile
            (fun n => (dictFind dict n).isSome)).filterMap (dictFind dict))).length
          = ((P.map Prod.fst).takeWhile (fun n => (dictFind dict n).isSome)).length := hlenTW
        _ ≤ (P.map Prod.fst).length :=
            (List.takeWhile_sublist (fun n => (dictFind dict n).isSome)).length_le
        _ = P.length := hlenN
  -- conclusion 3: the keyword overflow round-trips
  have goal3 : buildOvk P (renderArgs P dict ovp) (renderKws P dict ovk) = ovk := by
    show (bindKw P (renderKws P dict ovk) (bindPos P (renderArgs P dict ovp) []).1).2 = ovk
    rw [bindKw_snd, hK, List.filter_append]
    have hleft : (((P.map Prod.fst).dropWhile (fun n => (dictFind dict n).isSome)).filterMap
          (fun m => (dictFind dict m).map (fun v => (m, v)))).filter
          (fun q => !(P.any (fun p => p.1 == q.1))) = [] := by
      rw [List.filter_eq_nil_iff]
      rintro ⟨m, w⟩ hmem
      have hm := ((mem_filterMap_kwp_iff dict _ m w).mp hmem).1
      have hmN : m ∈ P.map Prod.fst :=
        (List.dropWhile_sublist (fun n => (dictFind dict n).isSome)).subset hm
      rw [any_eq_true_of_mem_names P m hmN]
      simp
    have hright : ovk.filter (fun q => !(P.any (fun p => p.1 == q.1))) = ovk := by
      rw [List.filter_eq_self]
      intro q hq
      rw [any_eq_false_of_not_mem_names P q.1 (h2 q hq)]
      rfl
    rw [hleft, hright, List.nil_append]
  -- conclusion 1: the dict round-trips pointwise
  have goal1 : ∀ n, dictFind (buildDict P (renderArgs P dict ovp) (renderKws P dict ovk)) n
      = dictFind dict n := by
    intro n
    show dictFind (bindKw P (renderKws P dict ovk)
      (bindPos P (renderArgs P dict ovp) []).1).1 n = dictFind dict n
    by_cases hn : n ∈ P.map Prod.fst
    · by_cases hb : (dictFind dict n).isSome = true
      · obtain ⟨v, hv⟩ := Option.isSome_iff_exists.mp hb
        by_cases hTWn : n ∈ (P.map Prod.fst).takeWhile (fun n => (dictFind dict n).isSome)
        · -- bound, in the positional prefix
          have hnoK : ∀ w, (n, w) ∉ renderKws P dict ovk := by
            intro w hw
            rw [hK] at hw
            rcases List.mem_append.mp hw with hw | hw
            · have hmDW := ((mem_filterMap_kwp_iff dict _ n w).mp hw).1
              have hnd' : ((P.map Prod.fst).takeWhile (fun n => (dictFind dict n).isSome)
                  ++ (P.map Prod.fst).dropWhile (fun n => (dictFind dict n).isSome)).Nodup := by
                rw [hsplit]; exact hnd
              exact ((List.nodup_append.mp hnd').2.2) hTWn hmDW
            · exact h2 (n, w) hw hn
          rw [dictFind_bindKw_of_nokw P _ _ n hnoK]
          rw [dictFind_bindPos_of_some P (renderArgs P dict ovp) [] n v hnd
            (by rw [hzipFind n, zipFind_filterMap (dictFind dict) _ n htw_pred hTWn]; exact hv)]
          exact hv.symm
        · -- bound, after the gap: emitted as a keyword
          have hDWn : n ∈ (P.map Prod.fst).dropWhile (fun n => (dictFind dict n).isSome) := by
            have : n ∈ (P.map Prod.fst).takeWhile (fun n => (dictFind dict n).isSome)
                ++ (P.map Prod.fst).dropWhile (fun n => (dictFind dict n).isSome) := by
              rw [hsplit]; exact hn
            rcases List.mem_append.mp this with h | h
            · exact absurd h hTWn
            · exact h
          have hmemK : (n, v) ∈ renderKws P dict ovk := by
            rw [hK]
            exact List.mem_append.mpr (Or.inl ((mem_filterMap_kwp_iff dict _ n v).mpr ⟨hDWn, hv⟩))
          have hKnodup : ((renderKws P dict ovk).map Prod.fst).Nodup := by
            rw [hK, List.map_append, map_fst_filterMap_kwp]
            refine List.nodup_append.mpr ⟨?_, h3, ?_⟩
            · exact ((List.filter_sublist _).nodup
                (((List.dropWhile_sublist _)).nodup hnd))
            · intro a ha hb'
              have haN : a ∈ P.map Prod.fst :=
                (List.dropWhile_sublist (fun n => (dictFind dict n).isSome)).subset
                  ((List.filter_sublist _).subset ha)
              obtain ⟨q, hq, hqa⟩ := List.mem_map.mp hb'
              exact h2 q hq (hqa ▸ haN)
          rw [dictFind_bindKw_of_mem P _ _ n v hKnodup hmemK (any_eq_true_of_mem_names P n hn)]
          exact hv.symm
      · -- a parameter with no binding
        have hv0 : dictFind dict n = none := by
          cases hx : dictFind dict n
          · rfl
          · rw [hx] at hb; simp at hb
        have hnoK : ∀ w, (n, w) ∉ renderKws P dict ovk := by
          intro w hw
          rw [hK] at hw
          rcases List.mem_append.mp hw with hw | hw
          · have := ((mem_filterMap_kwp_iff dict _ n w).mp hw).2
            rw [hv0] at this
            exact Option.noConfusion this
          · exact h2 (n, w) hw hn
        rw [dictFind_bindKw_of_nokw P _ _ n hnoK]
        have hnotTW : n ∉ (P.map Prod.fst).takeWhile (fun n => (dictFind dict n).isSome) := by
          intro hc
          have := htw_pred n hc
          rw [hv0] at this
          simp at this
        rw [dictFind_bindPos_of_none P (renderArgs P dict ovp) [] n
          (by rw [hzipFind n]; exact zipFind_eq_none_of_not_mem _ _ n hnotTW)]
        rw [hv0]
        rfl
    · -- not a parameter name at all
      rw [dictFind_bindKw_of_unmatched P _ _ n (any_eq_false_of_not_mem_names P n hn)]
      rw [dictFind_bindPos_of_none P (renderArgs P dict ovp) [] n
        (zipFind_eq_none_of_not_mem _ _ n hn)]
      rw [h1 n hn]
      rfl
  exact ⟨goal1, goal2, goal3⟩

/-- Claim C1: round-trip on an unedited signature.  For any definition `D`
(with distinct parameter names) and call `C` (with distinct keyword
names), rendering the mapping built from `(D, C)` back against the same
`D` produces a call that binds the same argument texts to the same
parameters as `C` did: rebuilding the mapping from the rendered call
yields a pointwise-equal `param_dict` and identical positional and
keyword overflow lists (the positional/keyword split of the rendered text
may differ, but the bindings are unchanged). -/
theorem claim_c1_roundtrip (D : DefinitionInfo) (C : CallInfo)
    (hnd : (D.args_with_defaults.map Prod.fst).Nodup)
    (hkw : (C.keywords.map Prod.fst).Nodup) :
    (∀ n, dictFind (ArgumentMapping.build D
          ((ArgumentMapping.build D C).to_call_info D)).param_dict n
        = dictFind (ArgumentMapping.build D C).param_dict n)
    ∧ (ArgumentMapping.build D ((ArgumentMapping.build D C).to_call_info D)).args_arg
        = (ArgumentMapping.build D C).args_arg
    ∧ (ArgumentMapping.build D ((ArgumentMapping.build D C).to_call_info D)).keyword_args
        = (ArgumentMapping.build D C).keyword_args := by
  have h1 : ∀ n, n ∉ D.args_with_defaults.map Prod.fst →
      dictFind (buildDict D.args_with_defaults C.args C.keywords) n = none := by
    intro n hn
    show dictFind (bindKw D.args_with_defaults C.keywords
      (bindPos D.args_with_defaults C.args []).1).1 n = none
    rw [dictFind_bindKw_of_unmatched _ C.keywords _ n
      (any_eq_false_of_not_mem_names _ n hn)]
    rw [dictFind_bindPos_of_none _ C.args [] n (zipFind_eq_none_of_not_mem _ _ n hn)]
    rfl
  have hovk_eq : buildOvk D.args_with_defaults C.args C.keywords
      = C.keywords.filter (fun q => !(D.args_with_defaults.any (fun p => p.1 == q.1))) :=
    bindKw_snd _ C.keywords _
  have h2 : ∀ q ∈ buildOvk D.args_with_defaults C.args C.keywords,
      q.1 ∉ D.args_with_defaults.map Prod.fst := by
    intro q hq hmem
    rw [hovk_eq] at hq
    have hflt := (List.mem_filter.mp hq).2
    rw [any_eq_true_of_mem_names _ q.1 hmem] at hflt
    simp at hflt
  have h3 : ((buildOvk D.args_with_defaults C.args C.keywords).map Prod.fst).Nodup := by
    rw [hovk_eq]
    exact ((List.filter_sublist C.keywords).map Prod.fst).nodup hkw
  have h4 : (∃ n ∈ D.args_with_defaults.map Prod.fst,
        dictFind (buildDict D.args_with_defaults C.args C.keywords) n = none) →
      buildOvp D.args_with_defaults C.args = [] := by
    rintro ⟨n0, hn0, hnone⟩
    show (bindPos D.args_with_defaults C.args []).2 = []
    rw [bindPos_snd]
    apply List.drop_eq_nil_of_le
    by_contra hlt
    push_neg at hlt
    have hz : (zipFind (D.args_with_defaults.map Prod.fst) C.args n0).isSome :=
      zipFind_isSome_of_mem _ _ n0 hn0 (by rw [List.length_map]; exact le_of_lt hlt)
    obtain ⟨v, hv⟩ := Option.isSome_iff_exists.mp hz
    have hpos : dictFind (bindPos D.args_with_defaults C.args []).1 n0 = some v :=
      dictFind_bindPos_of_some _ C.args [] n0 v hnd hv
    have hsome : (dictFind (buildDict D.args_with_defaults C.args C.keywords) n0).isSome := by
      show (dictFind (bindKw D.args_with_defaults C.keywords
        (bindPos D.args_with_defaults C.args []).1).1 n0).isSome
      exact dictFind_bindKw_isSome_mono _ C.keywords _ n0 (by rw [hpos]; rfl)
    rw [hnone] at hsome
    simp at hsome
  exact render_rebuild_core D.args_with_defaults
    (buildDict D.args_with_defaults C.args C.keywords)
    (buildOvp D.args_with_defaults C.args)
    (buildOvk D.args_with_defaults C.args C.keywords)
    hnd h1 h2 h3 h4

/-- Claim C1 witness: the round-trip at `f(a, b)` called as `f(1, b=2)`. -/
theorem claim_c1_witness :
    dictFind (ArgumentMapping.build exDefABplain
        ((ArgumentMapping.build exDefABplain exCallPosKw).to_call_info exDefABplain)).param_dict
        "b"
      = dictFind (ArgumentMapping.build exDefABplain exCallPosKw).param_dict "b"
    ∧ (ArgumentMapping.build exDefABplain
        ((ArgumentMapping.build exDefABplain exCallPosKw).to_call_info exDefABplain)).args_arg
      = (ArgumentMapping.build exDefABplain exCallPosKw).args_arg :=
  ⟨(claim_c1_roundtrip exDefABplain exCallPosKw (by decide) (by decide)).1 "b",
   (claim_c1_roundtrip exDefABplain exCallPosKw (by decide) (by decide)).2.1⟩

/-- Claim C4 (amended): renaming a parameter does not carry its binding
over — rendering the mapping built from `(D, C)` against a definition
`Dr` in which a parameter slot now carries the fresh name `nr` (no
binding and no overflow keyword under that name, and no positional
overflow to slide into the slot) produces a call that binds nothing to
`nr`: no keyword argument is named `nr`, and rebuilding the mapping from
the rendered call against `Dr` leaves `nr` unbound. -/
theorem claim_c4_renamed_slot_unbound (D Dr : DefinitionInfo) (C : CallInfo) (nr : String)
    (_hmem : nr ∈ Dr.args_with_defaults.map Prod.fst)
    (hfresh : dictFind (ArgumentMapping.build D C).param_dict nr = none)
    (hovk : ∀ v, (nr, v) ∉ (ArgumentMapping.build D C).keyword_args)
    (hovp : (ArgumentMapping.build D C).args_arg = []) :
    (∀ v, (nr, v) ∉ ((ArgumentMapping.build D C).to_call_info Dr).keywords)
    ∧ dictFind (ArgumentMapping.build Dr
        ((ArgumentMapping.build D C).to_call_info Dr)).param_dict nr = none := by
  have hkwch : ((ArgumentMapping.build D C).to_call_info Dr).keywords
      = ((Dr.args_with_defaults.map Prod.fst).dropWhile
          (fun n => (dictFind (ArgumentMapping.build D C).param_dict n).isSome)).filterMap
          (fun m => (dictFind (ArgumentMapping.build D C).param_dict m).map (fun v => (m, v)))
        ++ (ArgumentMapping.build D C).keyword_args := by
    show (walkParams (ArgumentMapping.build D C).param_dict
        (Dr.args_with_defaults.map Prod.fst)).2 ++ _ = _
    rw [walkParams_snd]
  have hnoK : ∀ v, (nr, v) ∉ ((ArgumentMapping.build D C).to_call_info Dr).keywords := by
    intro v hv
    rw [hkwch] at hv
    rcases List.mem_append.mp hv with hv | hv
    · have := ((mem_filterMap_kwp_iff _ _ nr v).mp hv).2
      rw [hfresh] at this
      exact Option.noConfusion this
    · exact hovk v hv
  refine ⟨hnoK, ?_⟩
  have hargsch : ((ArgumentMapping.build D C).to_call_info Dr).args
      = ((Dr.args_with_defaults.map Prod.fst).takeWhile
          (fun n => (dictFind (ArgumentMapping.build D C).param_dict n).isSome)).filterMap
          (dictFind (ArgumentMapping.build D C).param_dict) := by
    show (walkParams (ArgumentMapping.build D C).param_dict
        (Dr.args_with_defaults.map Prod.fst)).1 ++ (ArgumentMapping.build D C).args_arg = _
    rw [walkParams_fst, hovp, List.append_nil]
  have hlenTW : ((((Dr.args_with_defaults.map Prod.fst).takeWhile
        (fun n => (dictFind (ArgumentMapping.build D C).param_dict n).isSome)).filterMap
        (dictFind (ArgumentMapping.build D C).param_dict))).length
      = ((Dr.args_with_defaults.map Prod.fst).takeWhile
          (fun n => (dictFind (ArgumentMapping.build D C).param_dict n).isSome)).length :=
    len_filterMap_isSome _ _ (fun n hn => mem_takeWhile_pred _ _ n hn)
  have hzip : (Dr.args_with_defaults.map Prod.fst).zip
        (((ArgumentMapping.build D C).to_call_info Dr).args)
      = ((Dr.args_with_defaults.map Prod.fst).takeWhile
          (fun n => (dictFind (ArgumentMapping.build D C).param_dict n).isSome)).zip
        (((Dr.args_with_defaults.map Prod.fst).takeWhile
          (fun n => (dictFind (ArgumentMapping.build D C).param_dict n).isSome)).filterMap
          (dictFind (ArgumentMapping.build D C).param_dict)) := by
    rw [hargsch]
    calc (Dr.args_with_defaults.map Prod.fst).zip
          (((Dr.args_with_defaults.map Prod.fst).takeWhile
            (fun n => (dictFind (ArgumentMapping.build D C).param_dict n).isSome)).filterMap
            (dictFind (ArgumentMapping.build D C).param_dict))
        = (((Dr.args_with_defaults.map Prod.fst).takeWhile
              (fun n => (dictFind (ArgumentMapping.build D C).param_dict n).isSome))
            ++ ((Dr.args_with_defaults.map Prod.fst).dropWhile
              (fun n => (dictFind (ArgumentMapping.build D C).param_dict n).isSome))).zip
            (((Dr.args_with_defaults.map Prod.fst).takeWhile
              (fun n => (dictFind (ArgumentMapping.build D C).param_dict n).isSome)).filterMap
              (dictFind (ArgumentMapping.build D C).param_dict)) := by
          rw [List.takeWhile_append_dropWhile]
      _ = _ := zip_append_of_len_right _ _ _ hlenTW
  have hnotTW : nr ∉ (Dr.args_with_defaults.map Prod.fst).takeWhile
      (fun n => (dictFind (ArgumentMapping.build D C).param_dict n).isSome) := by
    intro hc
    have := mem_takeWhile_pred _ _ nr hc
    rw [hfresh] at this
    simp at this
  show dictFind (bindKw Dr.args_with_defaults
    (((ArgumentMapping.build D C).to_call_info Dr).keywords)
    (bindPos Dr.args_with_defaults
      (((ArgumentMapping.build D C).to_call_info Dr).args) []).1).1 nr = none
  rw [dictFind_bindKw_of_nokw _ _ _ nr hnoK]
  rw [dictFind_bindPos_of_none _ _ [] nr (by
    show zipFind (Dr.args_with_defaults.map Prod.fst)
      (((ArgumentMapping.build D C).to_call_info Dr).args) nr = none
    unfold zipFind
    rw [hzip]
    exact zipFind_eq_none_of_not_mem _ _ nr hnotTW)]
  rfl

/-- Claim C4 witness for the amended statement: renaming `a` to `x` in
`f(a)` after the call `f(1)` renders a call with no binding for `x`. -/
theorem claim_c4_witness :
    dictFind (ArgumentMapping.build exDefX
        ((ArgumentMapping.build exDefA exCallOne).to_call_info exDefX)).param_dict "x"
      = none :=
  (claim_c4_renamed_slot_unbound exDefA exDefX exCallOne "x" (by decide) (by decide)
    (by intro v hv; simp [ArgumentMapping.build, bindPos, bindKw, exDefA, exCallOne] at hv)
    rfl).2
